import Mathlib

/-!
Verification of the pdftool page-tree index, link manager, metadata
encoding and image embedding engine (src/pdf.rs, src/img2pdf.rs) against
its specification.

The page tree of a PDF document is a hierarchy of Pages dictionaries
(internal nodes, holding a Kids array of object references and a cached
Count) and Page dictionaries (leaves).  `PNode` embeds exactly that
structure: each node carries its object id, internal nodes also carry
their cached Count (an i64 in lopdf, embedded as Int) and their ordered
kid list.  The object store of lopdf maps ids to dictionaries; a tree
with no duplicate ids represents the same information, and mutation
through `doc.get_dictionary_mut(id)` becomes rewriting the unique node
carrying that id.
-/

inductive PNode where
  | page (id : Nat)
  | pages (id : Nat) (count : Int) (kids : List PNode)

/-- Object id of a node (`ObjectId` in lopdf, with the generation number
dropped since the code never distinguishes generations). -/
def rootId : PNode → Nat
  | .page i => i
  | .pages i _ _ => i

/-- Cached Count entry of the root dictionary (`PagesDictMut::count`). -/
def rootCount : PNode → Int
  | .page _ => 0
  | .pages _ c _ => c

/-- Kids array of the root dictionary (`PagesDict::kids`). -/
def rootKids : PNode → List PNode
  | .page _ => []
  | .pages _ _ kids => kids

mutual
/-- Leaf ids of a subtree in depth-first left-to-right order: the
flattened page order of the document. -/
def leafIds : PNode → List Nat
  | .page i => [i]
  | .pages _ _ kids => leafIdsL kids
/-- Leaf ids of a forest, left to right. -/
def leafIdsL : List PNode → List Nat
  | [] => []
  | kid :: rest => leafIds kid ++ leafIdsL rest
end

/-- Actual number of Page leaves of a subtree. -/
def nLeaves (t : PNode) : Nat := (leafIds t).length

/-- Actual number of Page leaves of a forest. -/
def nLeavesL (l : List PNode) : Nat := (leafIdsL l).length

mutual
/-- All object ids of a subtree (the node itself first). -/
def allIds : PNode → List Nat
  | .page i => [i]
  | .pages i _ kids => i :: allIdsL kids
/-- All object ids of a forest. -/
def allIdsL : List PNode → List Nat
  | [] => []
  | kid :: rest => allIds kid ++ allIdsL rest
end

mutual
/-- Model of `doc.get_dictionary(id)` restricted to the page tree: the
(first) node of the tree carrying the id.  On a tree without duplicate
ids this is exactly the object-store lookup for ids present in the
tree. -/
def findNode (tid : Nat) : PNode → Option PNode
  | .page p => if p = tid then some (.page p) else none
  | .pages p c kids => if p = tid then some (.pages p c kids) else findNodeL tid kids
/-- Forest version of `findNode`. -/
def findNodeL (tid : Nat) : List PNode → Option PNode
  | [] => none
  | kid :: rest =>
      match findNode tid kid with
      | some n => some n
      | none => findNodeL tid rest
end

/-- Two to the 64th: the modulus of the usize arithmetic of the source. -/
def U64 : Nat := 18446744073709551616

/-- Wrapping decrement of a usize, the release-mode semantics of
`*index -= 1` in `Pages::find_pages` (src/pdf.rs line 96). -/
def wrapDec (k : Nat) : Nat := (k + (U64 - 1)) % U64

/-- The loop body of `Pages::find_pages` (src/pdf.rs lines 81-105),
generic in the countdown decrement `dec` (instantiated with `wrapDec`
below).  Arguments: the id of the Pages node whose kids are being
scanned (`pages_id`), the running countdown (`index`), the enumerate
position of the first element of the remaining kid list, and that
remaining kid list.  Returns the final countdown together with the
result of the function: for a "Pages" kid it recurses into that kid and
returns its result if it is `some`; for a "Page" kid it decrements the
countdown and, when the countdown reaches zero, returns the current
Pages id and the kid position. -/
def findInKidsG (dec : Nat → Nat) : Nat → Nat → Nat → List PNode → Nat × Option (Nat × Nat)
  | _, k, _, [] => (k, none)
  | selfId, k, i, .page _ :: rest =>
      if dec k = 0 then (dec k, some (selfId, i))
      else findInKidsG dec selfId (dec k) (i+1) rest
  | selfId, k, i, .pages kidId _ kidKids :: rest =>
      let r := findInKidsG dec kidId k 0 kidKids
      if r.2.isSome then r
      else findInKidsG dec selfId r.1 (i+1) rest

/-- Instantiation of `Pages::find_pages` with the usize countdown semantics. -/
def findInKids : Nat → Nat → Nat → List PNode → Nat × Option (Nat × Nat) :=
  findInKidsG wrapDec

/-- Entry point `self.find_pages(&mut index, self.root_id)`: scan the
root's kids.  The root of a document is always a Pages node; on a bare
leaf the code would panic reading Kids, embedded as the vacuous
result. -/
def findPages (t : PNode) (k : Nat) : Nat × Option (Nat × Nat) :=
  match t with
  | .page _ => (k, none)
  | .pages selfId _ kids => findInKids selfId k 0 kids

mutual
/-- Model of `PagesDictMut::new(doc, tid)` followed by
`PagesDictMut::insert(idx, pageId)` (src/pdf.rs lines 52-55): on the
node carrying id `tid`, insert a reference to `pageId` at position `idx`
of the Kids array and increment the cached Count by one.  Every other
node is left unchanged. -/
def dictInsert (tid idx pid : Nat) : PNode → PNode
  | .page p => .page p
  | .pages p c kids =>
      if p = tid then .pages p (c + 1) (kids.insertIdx idx (.page pid))
      else .pages p c (dictInsertL tid idx pid kids)
/-- Forest version of `dictInsert`. -/
def dictInsertL (tid idx pid : Nat) : List PNode → List PNode
  | [] => []
  | kid :: rest => dictInsert tid idx pid kid :: dictInsertL tid idx pid rest
end

mutual
/-- Model of `PagesDictMut::new(doc, tid)` followed by
`PagesDictMut::remove(idx)` (src/pdf.rs lines 57-61), tree part: on the
node carrying id `tid`, remove the kid at position `idx` of the Kids
array and decrement the cached Count by one. -/
def dictRemove (tid idx : Nat) : PNode → PNode
  | .page p => .page p
  | .pages p c kids =>
      if p = tid then .pages p (c - 1) (kids.eraseIdx idx)
      else .pages p c (dictRemoveL tid idx kids)
/-- Forest version of `dictRemove`. -/
def dictRemoveL (tid idx : Nat) : List PNode → List PNode
  | [] => []
  | kid :: rest => dictRemove tid idx kid :: dictRemoveL tid idx rest
end

/-- The object reference removed by `PagesDictMut::remove(idx)`
(`self.kids_mut().remove(index).as_reference()`): the id of the kid at
position `idx` of the Kids array of the node carrying id `tid`. -/
def removedRef (t : PNode) (tid idx : Nat) : Option Nat :=
  match findNode tid t with
  | some (.pages _ _ ks) => (ks[idx]?).map rootId
  | _ => none

/-- Model of `Pages::insert` (src/pdf.rs lines 107-112): resolve the flat index
via `find_pages`; if it resolves, insert the page reference at the
returned position of the returned parent.  If it does not resolve,
nothing happens. -/
def pagesInsert (t : PNode) (k : Nat) (pageId : Nat) : PNode :=
  match (findPages t k).2 with
  | some (pid, idx) => dictInsert pid idx pageId t
  | none => t

/-- Model of `Pages::remove` (src/pdf.rs lines 114-118): resolve the flat index
via `find_pages` and remove the kid at the resolved position, returning
its id; `none` when the index does not resolve.  (The inner `none`
branch of `removedRef` is unreachable: `find_pages` always returns a
valid kid position.) -/
def pagesRemove (t : PNode) (k : Nat) : Option Nat × PNode :=
  match (findPages t k).2 with
  | some (pid, idx) =>
      match removedRef t pid idx with
      | some rid => (some rid, dictRemove pid idx t)
      | none => (none, t)
  | none => (none, t)

/-- Model of `Pages::push` (src/pdf.rs lines 47-50, 77-79): append a page
reference at the end of the root's Kids array and increment the root's
Count.  This, not `insert`, is the operation used when adding newly
created pages (`Pdf::add_page`). -/
def pagesPush (t : PNode) (pageId : Nat) : PNode :=
  match t with
  | .page p => .page p
  | .pages p c kids => .pages p (c + 1) (kids ++ [.page pageId])

/-- Model of `Pdf::move_page` (src/pdf.rs lines 447-456): `remove(from)`, then —
against the already mutated tree — `insert(to, removed)`.  `none` embeds
the `anyhow::bail!` when the source index does not resolve. -/
def movePage (t : PNode) (src dst : Nat) : Option PNode :=
  match pagesRemove t src with
  | (some rid, t2) => some (pagesInsert t2 dst rid)
  | (none, _) => none

theorem wrapDec_eval (k : Nat) (h : k < U64) :
    wrapDec k = if k = 0 then U64 - 1 else k - 1 := by
  rw [wrapDec]
  split
  · subst_vars
    norm_num [U64]
  · have h2 : k + (U64 - 1) = (k - 1) + U64 := by
      have hU : (18446744073709551616 : Nat) = U64 := rfl
      omega
    rw [h2, Nat.add_mod_right, Nat.mod_eq_of_lt]
    have hU : (18446744073709551616 : Nat) = U64 := rfl
    omega

theorem wrapDec_one : wrapDec 1 = 0 := by
  rw [wrapDec_eval 1 (by norm_num [U64])]; norm_num

theorem wrapDec_two : wrapDec 2 = 1 := by
  rw [wrapDec_eval 2 (by norm_num [U64])]; norm_num

theorem wrapDec_lt (k : Nat) : wrapDec k < U64 := by
  rw [wrapDec]
  exact Nat.mod_lt _ (by norm_num [U64])

theorem findInKids_def : findInKidsG wrapDec = findInKids := rfl

theorem nLeavesL_nil : nLeavesL [] = 0 := by simp [nLeavesL, leafIdsL]

theorem leafIdsL_cons_page (a : Nat) (rest : List PNode) :
    leafIdsL (.page a :: rest) = a :: leafIdsL rest := by
  simp [leafIdsL, leafIds]

theorem leafIdsL_cons_pages (q : Nat) (c : Int) (ks rest : List PNode) :
    leafIdsL (.pages q c ks :: rest) = leafIdsL ks ++ leafIdsL rest := by
  simp [leafIdsL, leafIds]

theorem nLeavesL_cons_page (a : Nat) (rest : List PNode) :
    nLeavesL (.page a :: rest) = 1 + nLeavesL rest := by
  simp [nLeavesL, leafIdsL_cons_page]
  omega

theorem nLeavesL_cons_pages (q : Nat) (c : Int) (ks rest : List PNode) :
    nLeavesL (.pages q c ks :: rest) = nLeavesL ks + nLeavesL rest := by
  simp [nLeavesL, leafIdsL_cons_pages]

theorem findInKids_nil (s k i : Nat) : findInKids s k i [] = (k, none) := by
  simp [findInKids, findInKidsG]

theorem findInKids_cons_page (s k i a : Nat) (rest : List PNode) :
    findInKids s k i (.page a :: rest) =
      if wrapDec k = 0 then (wrapDec k, some (s, i))
      else findInKids s (wrapDec k) (i+1) rest := by
  simp only [findInKids]
  rw [findInKidsG]

theorem findInKids_cons_pages (s k i q : Nat) (c : Int) (ks rest : List PNode) :
    findInKids s k i (.pages q c ks :: rest) =
      if (findInKids q k 0 ks).2.isSome then findInKids q k 0 ks
      else findInKids s (findInKids q k 0 ks).1 (i+1) rest := by
  simp only [findInKids]
  rw [findInKidsG]

/-- Running `find_pages` on a countdown strictly larger than the leaf population
of the scanned forest returns nothing and leaves the countdown reduced
by the number of leaves visited. -/
theorem findInKids_gt : ∀ (s k i : Nat) (l : List PNode), k < U64 → nLeavesL l < k →
    findInKids s k i l = (k - nLeavesL l, none) := by
  intro s k i l
  refine findInKidsG.induct wrapDec
    (motive := fun s k i l => k < U64 → nLeavesL l < k →
      findInKids s k i l = (k - nLeavesL l, none)) ?_ ?_ ?_ ?_ ?_ s k i l
  · intro s k i hk hgt
    simp [findInKids_nil, nLeavesL_nil]
  · intro s k i a rest h0 hk hgt
    exfalso
    rw [nLeavesL_cons_page] at hgt
    rw [wrapDec_eval k hk] at h0
    split at h0 <;> omega
  · intro s k i a rest h0 IH hk hgt
    rw [nLeavesL_cons_page] at hgt
    have hwk : wrapDec k = k - 1 := by
      rw [wrapDec_eval k hk]
      split <;> omega
    rw [findInKids_cons_page]
    rw [hwk] at IH ⊢
    have h1 : ¬(k - 1 = 0) := by omega
    rw [if_neg h1]
    rw [IH (by omega) (by omega)]
    rw [nLeavesL_cons_page]
    have harith : k - 1 - nLeavesL rest = k - (1 + nLeavesL rest) := by omega
    rw [harith]
  · intro s k i q c ks rest
    dsimp only
    intro hsome IH1 hk hgt
    exfalso
    rw [nLeavesL_cons_pages] at hgt
    rw [findInKids_def] at hsome
    rw [IH1 hk (by omega)] at hsome
    simp at hsome
  · intro s k i q c ks rest
    dsimp only
    intro hsome IH2 IH3 hk hgt
    rw [nLeavesL_cons_pages] at hgt
    have hks : findInKids q k 0 ks = (k - nLeavesL ks, none) :=
      IH2 hk (by omega)
    rw [findInKids_def] at IH3
    rw [hks] at IH3
    simp only at IH3
    rw [findInKids_cons_pages, hks]
    simp only [Option.isSome_none, Bool.false_eq_true, if_false]
    rw [IH3 (by omega) (by omega)]
    rw [nLeavesL_cons_pages]
    have harith : k - nLeavesL ks - nLeavesL rest = k - (nLeavesL ks + nLeavesL rest) := by
      omega
    rw [harith]

theorem wrapDec_iter_le : ∀ (j k : Nat), j ≤ k → k < U64 → wrapDec^[j] k = k - j := by
  intro j
  induction j with
  | zero => intro k _ _; simp
  | succ j IH =>
    intro k hle hk
    rw [Function.iterate_succ_apply]
    have h0 : wrapDec k = k - 1 := by
      rw [wrapDec_eval k hk]
      split <;> omega
    rw [h0, IH (k - 1) (by omega) (by omega)]
    omega

theorem wrapDec_iter_zero (j : Nat) (h1 : 1 ≤ j) (h2 : j < U64) :
    wrapDec^[j] 0 = U64 - j := by
  obtain ⟨j2, rfl⟩ : ∃ j2, j = j2 + 1 := ⟨j - 1, by omega⟩
  rw [Function.iterate_succ_apply]
  have h0 : wrapDec 0 = U64 - 1 := by
    rw [wrapDec_eval 0 (by norm_num [U64])]
    norm_num
  have hU : (18446744073709551616 : Nat) = U64 := rfl
  rw [h0, wrapDec_iter_le j2 (U64 - 1) (by omega) (by omega)]
  omega

theorem wrapDec_iter_lt (j k : Nat) (hk : k < U64) : wrapDec^[j] k < U64 := by
  induction j with
  | zero => simpa
  | succ j _ =>
    rw [Function.iterate_succ_apply']
    exact wrapDec_lt _

/-- Running `find_pages` on a countdown that never reaches zero during the scan
of the forest (counting wrapping usize decrements) returns nothing, the
countdown wrapped down by the number of leaves visited. -/
theorem findInKids_nohit : ∀ (s k i : Nat) (l : List PNode), k < U64 →
    (∀ j, 1 ≤ j → j ≤ nLeavesL l → wrapDec^[j] k ≠ 0) →
    findInKids s k i l = (wrapDec^[nLeavesL l] k, none) := by
  intro s k i l
  refine findInKidsG.induct wrapDec
    (motive := fun s k i l => k < U64 →
      (∀ j, 1 ≤ j → j ≤ nLeavesL l → wrapDec^[j] k ≠ 0) →
      findInKids s k i l = (wrapDec^[nLeavesL l] k, none)) ?_ ?_ ?_ ?_ ?_ s k i l
  · intro s k i hk _
    simp [findInKids_nil, nLeavesL_nil]
  · intro s k i a rest h0 hk hnz
    exfalso
    refine hnz 1 (by omega) ?_ ?_
    · rw [nLeavesL_cons_page]; omega
    · simpa using h0
  · intro s k i a rest h0 IH hk hnz
    rw [findInKids_cons_page, if_neg h0]
    rw [IH (wrapDec_lt k) ?_]
    · rw [nLeavesL_cons_page]
      have he : ∀ m : Nat, wrapDec^[m] (wrapDec k) = wrapDec^[m + 1] k := by
        intro m
        rw [Function.iterate_succ_apply]
      rw [he, Nat.add_comm 1 (nLeavesL rest)]
    · intro j hj1 hj2
      have he : wrapDec^[j] (wrapDec k) = wrapDec^[j + 1] k := by
        rw [Function.iterate_succ_apply]
      rw [he]
      refine hnz (j + 1) (by omega) ?_
      rw [nLeavesL_cons_page]
      omega
  · intro s k i q c ks rest
    dsimp only
    intro hsome IH1 hk hnz
    exfalso
    rw [findInKids_def] at hsome
    rw [IH1 hk ?_] at hsome
    · simp at hsome
    · intro j hj1 hj2
      refine hnz j hj1 ?_
      rw [nLeavesL_cons_pages]
      omega
  · intro s k i q c ks rest
    dsimp only
    intro hsome IH2 IH3 hk hnz
    have hks : findInKids q k 0 ks = (wrapDec^[nLeavesL ks] k, none) := by
      refine IH2 hk ?_
      intro j hj1 hj2
      refine hnz j hj1 ?_
      rw [nLeavesL_cons_pages]
      omega
    rw [findInKids_def] at IH3
    rw [hks] at IH3
    simp only at IH3
    rw [findInKids_cons_pages, hks]
    simp only [Option.isSome_none, Bool.false_eq_true, if_false]
    rw [IH3 (wrapDec_iter_lt _ _ hk) ?_]
    · rw [nLeavesL_cons_pages]
      have he : wrapDec^[nLeavesL rest] (wrapDec^[nLeavesL ks] k)
          = wrapDec^[nLeavesL rest + nLeavesL ks] k := by
        rw [Function.iterate_add_apply]
      rw [he, Nat.add_comm (nLeavesL rest) (nLeavesL ks)]
    · intro j hj1 hj2
      have he : wrapDec^[j] (wrapDec^[nLeavesL ks] k) = wrapDec^[j + nLeavesL ks] k := by
        rw [Function.iterate_add_apply]
      rw [he]
      refine hnz (j + nLeavesL ks) (by omega) ?_
      rw [nLeavesL_cons_pages]
      omega

/-- Occurrence of a subtree inside a page tree (reflexive-transitive
closure of the kid relation). -/
inductive Occurs : PNode → PNode → Prop where
  | refl (t : PNode) : Occurs t t
  | inKid {s kid : PNode} {p : Nat} {c : Int} {kids : List PNode} :
      Occurs s kid → kid ∈ kids → Occurs s (.pages p c kids)

/-- Running `find_pages` on a countdown within the leaf population of the
scanned forest: it succeeds, the final countdown is zero, and the
returned pair designates the countdown-th leaf (in depth-first
left-to-right order): either a Page kid of the scanned forest itself,
located at the returned position (offset by the running enumerate
position `i`), or a Page kid at the returned position of a Pages node
occurring strictly inside the forest, whose id is returned. -/
theorem findInKids_pos : ∀ (s k i : Nat) (l : List PNode), 1 ≤ k → k ≤ nLeavesL l → k < U64 →
    ∃ pid idx x, findInKids s k i l = (0, some (pid, idx)) ∧
      (leafIdsL l)[k-1]? = some x ∧
      ((pid = s ∧ ∃ j, l[j]? = some (.page x) ∧ idx = i + j) ∨
       (∃ kid, kid ∈ l ∧ ∃ c2 ks, Occurs (.pages pid c2 ks) kid ∧ ks[idx]? = some (.page x))) := by
  intro s k i l
  refine findInKidsG.induct wrapDec
    (motive := fun s k i l => 1 ≤ k → k ≤ nLeavesL l → k < U64 →
      ∃ pid idx x, findInKids s k i l = (0, some (pid, idx)) ∧
        (leafIdsL l)[k-1]? = some x ∧
        ((pid = s ∧ ∃ j, l[j]? = some (.page x) ∧ idx = i + j) ∨
         (∃ kid, kid ∈ l ∧ ∃ c2 ks, Occurs (.pages pid c2 ks) kid ∧ ks[idx]? = some (.page x))))
    ?_ ?_ ?_ ?_ ?_ s k i l
  · intro s k i h1 h2 _
    rw [nLeavesL_nil] at h2
    omega
  · intro s k i a rest h0 h1 h2 hk
    refine ⟨s, i, a, ?_, ?_, ?_⟩
    · rw [findInKids_cons_page, if_pos h0, h0]
    · have hk1 : k = 1 := by
        rw [wrapDec_eval k hk] at h0
        split at h0 <;> omega
      rw [leafIdsL_cons_page, hk1]
      exact List.getElem?_cons_zero
    · exact Or.inl ⟨rfl, 0, List.getElem?_cons_zero, rfl⟩
  · intro s k i a rest h0 IH h1 h2 hk
    have hk2 : 2 ≤ k := by
      by_contra hc
      have hk1 : k = 1 := by omega
      rw [hk1, wrapDec_one] at h0
      exact h0 rfl
    obtain ⟨k2, rfl⟩ : ∃ k2, k = k2 + 2 := ⟨k - 2, by omega⟩
    have hwk : wrapDec (k2 + 2) = k2 + 1 := by
      rw [wrapDec_eval _ hk]
      split <;> omega
    rw [nLeavesL_cons_page] at h2
    rw [hwk] at IH
    obtain ⟨pid, idx, x, heq, hleaf, hdisj⟩ := IH (by omega) (by omega) (by omega)
    refine ⟨pid, idx, x, ?_, ?_, ?_⟩
    · rw [findInKids_cons_page, if_neg h0, hwk]
      exact heq
    · rw [leafIdsL_cons_page]
      show (a :: leafIdsL rest)[k2 + 1]? = some x
      rw [List.getElem?_cons_succ]
      exact hleaf
    · rcases hdisj with ⟨hps, j, hj, hidx⟩ | ⟨kid, hmem, hrest⟩
      · have hidx2 : idx = i + (j + 1) := by omega
        have hj2 : (PNode.page a :: rest)[j + 1]? = some (PNode.page x) := by
          rw [List.getElem?_cons_succ]
          exact hj
        exact Or.inl ⟨hps, j + 1, hj2, hidx2⟩
      · exact Or.inr ⟨kid, List.mem_cons_of_mem _ hmem, hrest⟩
  · intro s k i q c ks rest
    dsimp only
    intro hsome IH1 h1 h2 hk
    rw [findInKids_def] at hsome
    have hkm : k ≤ nLeavesL ks := by
      by_contra hc
      rw [findInKids_gt q k 0 ks hk (by omega)] at hsome
      simp at hsome
    obtain ⟨pid, idx, x, heq, hleaf, hdisj⟩ := IH1 h1 hkm hk
    refine ⟨pid, idx, x, ?_, ?_, ?_⟩
    · rw [findInKids_cons_pages, heq]
      simp
    · rw [leafIdsL_cons_pages]
      rw [List.getElem?_append_left]
      · exact hleaf
      · have hlen : (leafIdsL ks).length = nLeavesL ks := rfl
        omega
    · refine Or.inr ⟨.pages q c ks, List.mem_cons_self _ _, ?_⟩
      rcases hdisj with ⟨hpidq, j, hj, hidx⟩ | ⟨kid2, hmem2, c2, ks2, hocc, hks2⟩
      · subst hpidq
        refine ⟨c, ks, Occurs.refl _, ?_⟩
        have hidx0 : idx = j := by omega
        rw [hidx0]
        exact hj
      · exact ⟨c2, ks2, Occurs.inKid hocc hmem2, hks2⟩
  · intro s k i q c ks rest
    dsimp only
    intro hsome IH2 IH3 h1 h2 hk
    rw [findInKids_def] at hsome
    have hkm : nLeavesL ks < k := by
      by_contra hc
      obtain ⟨pid, idx, x, heq, _, _⟩ := IH2 h1 (by omega) hk
      rw [heq] at hsome
      simp at hsome
    have hgtks : findInKids q k 0 ks = (k - nLeavesL ks, none) :=
      findInKids_gt q k 0 ks hk (by omega)
    rw [nLeavesL_cons_pages] at h2
    rw [findInKids_def, hgtks] at IH3
    simp only at IH3
    obtain ⟨pid, idx, x, heq, hleaf, hdisj⟩ := IH3 (by omega) (by omega) (by omega)
    refine ⟨pid, idx, x, ?_, ?_, ?_⟩
    · rw [findInKids_cons_pages, hgtks]
      simp only [Option.isSome_none, Bool.false_eq_true, if_false]
      exact heq
    · rw [leafIdsL_cons_pages]
      rw [List.getElem?_append_right]
      · have hlen : (leafIdsL ks).length = nLeavesL ks := rfl
        rw [hlen]
        have hsplit : k - 1 - nLeavesL ks = k - nLeavesL ks - 1 := Nat.sub_right_comm k 1 _
        rw [hsplit]
        exact hleaf
      · have hlen : (leafIdsL ks).length = nLeavesL ks := rfl
        omega
    · rcases hdisj with ⟨hps, j, hj, hidx⟩ | ⟨kid, hmem, hrest⟩
      · have hidx2 : idx = i + (j + 1) := by omega
        have hj2 : (PNode.pages q c ks :: rest)[j + 1]? = some (PNode.page x) := by
          rw [List.getElem?_cons_succ]
          exact hj
        exact Or.inl ⟨hps, j + 1, hj2, hidx2⟩
      · exact Or.inr ⟨kid, List.mem_cons_of_mem _ hmem, hrest⟩

theorem allIds_page (p : Nat) : allIds (.page p) = [p] := by simp [allIds]

theorem allIds_pages (p : Nat) (c : Int) (kids : List PNode) :
    allIds (.pages p c kids) = p :: allIdsL kids := by simp [allIds]

theorem allIdsL_nil : allIdsL [] = [] := by simp [allIdsL]

theorem allIdsL_cons (kid : PNode) (rest : List PNode) :
    allIdsL (kid :: rest) = allIds kid ++ allIdsL rest := by simp [allIdsL]

theorem findNode_page (tid p : Nat) :
    findNode tid (.page p) = if p = tid then some (.page p) else none := by
  rw [findNode]

theorem findNode_pages (tid p : Nat) (c : Int) (kids : List PNode) :
    findNode tid (.pages p c kids) =
      if p = tid then some (.pages p c kids) else findNodeL tid kids := by
  rw [findNode]

theorem findNodeL_nil (tid : Nat) : findNodeL tid [] = none := by rw [findNodeL]

theorem findNodeL_cons (tid : Nat) (kid : PNode) (rest : List PNode) :
    findNodeL tid (kid :: rest) =
      match findNode tid kid with
      | some n => some n
      | none => findNodeL tid rest := by
  rw [findNodeL]

theorem rootId_mem_allIds (t : PNode) : rootId t ∈ allIds t := by
  cases t with
  | page p => simp [rootId, allIds_page]
  | pages p c kids => simp [rootId, allIds_pages]

theorem mem_allIdsL_of_mem {x : Nat} {kid : PNode} {l : List PNode}
    (hm : kid ∈ l) (hx : x ∈ allIds kid) : x ∈ allIdsL l := by
  induction l with
  | nil => cases hm
  | cons h rest IH =>
    rw [allIdsL_cons, List.mem_append]
    rcases List.mem_cons.mp hm with heq | hmem
    · exact Or.inl (heq ▸ hx)
    · exact Or.inr (IH hmem)

theorem occurs_mem {s t : PNode} (hocc : Occurs s t) : rootId s ∈ allIds t := by
  induction hocc with
  | refl => exact rootId_mem_allIds _
  | inKid hocc hmem IH =>
    rw [allIds_pages]
    exact List.mem_cons_of_mem _ (mem_allIdsL_of_mem hmem IH)

mutual
theorem findNode_not_mem (tid : Nat) (t : PNode) (h : tid ∉ allIds t) :
    findNode tid t = none := by
  cases t with
  | page p =>
    rw [allIds_page] at h
    simp only [List.mem_singleton] at h
    rw [findNode_page, if_neg]
    intro he
    exact h he.symm
  | pages p c kids =>
    rw [allIds_pages, List.mem_cons] at h
    push_neg at h
    rw [findNode_pages, if_neg]
    · exact findNodeL_not_mem tid kids h.2
    · intro he
      exact h.1 he.symm
termination_by sizeOf t
theorem findNodeL_not_mem (tid : Nat) (l : List PNode) (h : tid ∉ allIdsL l) :
    findNodeL tid l = none := by
  cases l with
  | nil => exact findNodeL_nil tid
  | cons kid rest =>
    rw [allIdsL_cons, List.mem_append] at h
    push_neg at h
    rw [findNodeL_cons, findNode_not_mem tid kid h.1]
    exact findNodeL_not_mem tid rest h.2
termination_by sizeOf l
end

mutual
theorem findNode_some_mem (tid : Nat) (t : PNode) {n : PNode}
    (h : findNode tid t = some n) : tid ∈ allIds t := by
  cases t with
  | page p =>
    rw [findNode_page] at h
    rw [allIds_page, List.mem_singleton]
    by_contra hc
    rw [if_neg (fun he => hc he.symm)] at h
    cases h
  | pages p c kids =>
    rw [findNode_pages] at h
    rw [allIds_pages, List.mem_cons]
    by_cases he : p = tid
    · exact Or.inl he.symm
    · rw [if_neg he] at h
      exact Or.inr (findNodeL_some_mem tid kids h)
termination_by sizeOf t
theorem findNodeL_some_mem (tid : Nat) (l : List PNode) {n : PNode}
    (h : findNodeL tid l = some n) : tid ∈ allIdsL l := by
  cases l with
  | nil => rw [findNodeL_nil] at h; cases h
  | cons kid rest =>
    rw [findNodeL_cons] at h
    rw [allIdsL_cons, List.mem_append]
    cases hf : findNode tid kid with
    | some m =>
      exact Or.inl (findNode_some_mem tid kid hf)
    | none =>
      rw [hf] at h
      exact Or.inr (findNodeL_some_mem tid rest h)
termination_by sizeOf l
end

theorem nodup_allIds_of_mem {kid : PNode} {l : List PNode}
    (hnd : (allIdsL l).Nodup) (hm : kid ∈ l) : (allIds kid).Nodup := by
  induction l with
  | nil => cases hm
  | cons h rest IH =>
    rw [allIdsL_cons, List.nodup_append] at hnd
    rcases List.mem_cons.mp hm with heq | hmem
    · exact heq ▸ hnd.1
    · exact IH hnd.2.1 hmem

theorem findNodeL_of_mem {tid : Nat} {kid n : PNode} {l : List PNode}
    (hnd : (allIdsL l).Nodup) (hm : kid ∈ l) (hf : findNode tid kid = some n) :
    findNodeL tid l = some n := by
  induction l with
  | nil => cases hm
  | cons h rest IH =>
    rw [allIdsL_cons, List.nodup_append] at hnd
    rcases List.mem_cons.mp hm with heq | hmem
    · subst heq
      rw [findNodeL_cons, hf]
    · have htid : tid ∈ allIds kid := findNode_some_mem tid kid hf
      have hnot : tid ∉ allIds h :=
        fun hin => hnd.2.2 hin (mem_allIdsL_of_mem hmem htid)
      rw [findNodeL_cons, findNode_not_mem tid h hnot]
      exact IH hnd.2.1 hmem

/-- On a tree without duplicate ids, a Pages node occurring anywhere in
the tree is exactly what the id lookup for its id returns. -/
theorem findNode_occurs {pid : Nat} {c : Int} {ks : List PNode} {t : PNode}
    (hocc : Occurs (.pages pid c ks) t) (hnd : (allIds t).Nodup) :
    findNode pid t = some (.pages pid c ks) := by
  revert hnd
  induction hocc with
  | refl => intro _; rw [findNode_pages, if_pos rfl]
  | inKid hocc hmem IH =>
    intro hnd
    rw [allIds_pages, List.nodup_cons] at hnd
    have hkid := IH (nodup_allIds_of_mem hnd.2 hmem)
    have hpid : pid ∈ allIds _ := occurs_mem hocc
    rw [findNode_pages, if_neg]
    · exact findNodeL_of_mem hnd.2 hmem hkid
    · intro he
      exact hnd.1 (he ▸ mem_allIdsL_of_mem hmem hpid)

theorem findPages_pages (rid : Nat) (c : Int) (kids : List PNode) (k : Nat) :
    findPages (.pages rid c kids) k = findInKids rid k 0 kids := rfl

theorem nLeaves_pages (rid : Nat) (c : Int) (kids : List PNode) :
    nLeaves (.pages rid c kids) = nLeavesL kids := by
  simp [nLeaves, nLeavesL, leafIds]

theorem leafIds_pages (rid : Nat) (c : Int) (kids : List PNode) :
    leafIds (.pages rid c kids) = leafIdsL kids := by
  simp [leafIds]

/-- C3: on a page tree (root Pages node with no duplicate object ids and
a leaf population within usize range), `find(flat_index)` fails — the
`Option` result embedding the PageNotFound error of the callers — if and
only if the flat index is zero ("non-positive" for a usize) or exceeds
the number of Page leaves; and for every flat index in range it returns
the id of the parent Pages node of the flat-index-th leaf (in depth-first
left-to-right order) together with that leaf's position in the parent's
Kids array. -/
theorem claim_C3_find_flat_index (rid : Nat) (c : Int) (kids : List PNode) (k : Nat)
    (hnd : (allIds (PNode.pages rid c kids)).Nodup)
    (hsz : nLeaves (PNode.pages rid c kids) < U64) (hk : k < U64) :
    ((findPages (PNode.pages rid c kids) k).2 = none ↔
      (k = 0 ∨ nLeaves (PNode.pages rid c kids) < k)) ∧
    (1 ≤ k → k ≤ nLeaves (PNode.pages rid c kids) →
      ∃ pid idx x, (findPages (PNode.pages rid c kids) k).2 = some (pid, idx) ∧
        (leafIds (PNode.pages rid c kids))[k-1]? = some x ∧
        ∃ c2 ks, findNode pid (PNode.pages rid c kids) = some (PNode.pages pid c2 ks) ∧
          ks[idx]? = some (PNode.page x)) := by
  rw [findPages_pages, nLeaves_pages, leafIds_pages] at *
  have hpos : 1 ≤ k → k ≤ nLeavesL kids →
      ∃ pid idx x, (findInKids rid k 0 kids).2 = some (pid, idx) ∧
        (leafIdsL kids)[k-1]? = some x ∧
        ∃ c2 ks, findNode pid (PNode.pages rid c kids) = some (PNode.pages pid c2 ks) ∧
          ks[idx]? = some (PNode.page x) := by
    intro h1 h2
    obtain ⟨pid, idx, x, heq, hleaf, hdisj⟩ := findInKids_pos rid k 0 kids h1 h2 hk
    refine ⟨pid, idx, x, by rw [heq], hleaf, ?_⟩
    rcases hdisj with ⟨hps, j, hj, hidx⟩ | ⟨kid, hmem, c2, ks, hocc, hks⟩
    · subst hps
      refine ⟨c, kids, ?_, ?_⟩
      · rw [findNode_pages, if_pos rfl]
      · have hidx2 : idx = j := by omega
        rw [hidx2]
        exact hj
    · refine ⟨c2, ks, ?_, hks⟩
      exact findNode_occurs (Occurs.inKid hocc hmem) hnd
  refine ⟨⟨?_, ?_⟩, hpos⟩
  · intro hnone
    by_contra hc
    push_neg at hc
    obtain ⟨pid, idx, x, heq, _, _⟩ := hpos (by omega) hc.2
    rw [heq] at hnone
    cases hnone
  · intro h
    rcases h with h0 | hgt
    · subst h0
      have hnohit := findInKids_nohit rid 0 0 kids (by norm_num [U64]) ?_
      · rw [hnohit]
      · intro j hj1 hj2
        have hU : (18446744073709551616 : Nat) = U64 := rfl
        rw [wrapDec_iter_zero j hj1 (by omega)]
        omega
    · rw [findInKids_gt rid k 0 kids hk hgt]

/-- Witness for C3: the hypotheses hold and the conclusion is obtained
from the theorem at a concrete nested tree and flat index 2. -/
theorem claim_C3_find_flat_index_witness :
    (allIds (PNode.pages 10 2 [.page 1, .pages 11 1 [.page 2]])).Nodup ∧
    nLeaves (PNode.pages 10 2 [.page 1, .pages 11 1 [.page 2]]) < U64 ∧
    (2 : Nat) < U64 ∧
    (((findPages (PNode.pages 10 2 [.page 1, .pages 11 1 [.page 2]]) 2).2 = none ↔
      (2 = 0 ∨ nLeaves (PNode.pages 10 2 [.page 1, .pages 11 1 [.page 2]]) < 2)) ∧
     (1 ≤ 2 → 2 ≤ nLeaves (PNode.pages 10 2 [.page 1, .pages 11 1 [.page 2]]) →
      ∃ pid idx x,
        (findPages (PNode.pages 10 2 [.page 1, .pages 11 1 [.page 2]]) 2).2 = some (pid, idx) ∧
        (leafIds (PNode.pages 10 2 [.page 1, .pages 11 1 [.page 2]]))[2-1]? = some x ∧
        ∃ c2 ks,
          findNode pid (PNode.pages 10 2 [.page 1, .pages 11 1 [.page 2]]) =
            some (PNode.pages pid c2 ks) ∧
          ks[idx]? = some (PNode.page x))) := by
  have h1 : (allIds (PNode.pages 10 2 [.page 1, .pages 11 1 [.page 2]])).Nodup := by
    simp only [allIds_pages, allIdsL_cons, allIds_page, allIdsL_nil]
    decide
  have h2 : nLeaves (PNode.pages 10 2 [.page 1, .pages 11 1 [.page 2]]) < U64 := by
    simp only [nLeaves, leafIds_pages, leafIdsL_cons_page, leafIdsL_cons_pages]
    simp [leafIds, leafIdsL]
    norm_num [U64]
  have h3 : (2 : Nat) < U64 := by norm_num [U64]
  exact ⟨h1, h2, h3, claim_C3_find_flat_index 10 2 [.page 1, .pages 11 1 [.page 2]] 2 h1 h2 h3⟩

/-- C1 (code bug): `Pages::insert` and `Pages::remove` update the cached
Count only on the direct parent returned by `find_pages`, not on every
ancestor up to the root.  On the nested tree
root(id 0, Count 1)[inner(id 1, Count 1)[page 2]], inserting page 3 at
flat index 1 yields a tree whose root still caches Count 1 while its
subtree holds 2 leaves; symmetrically, removing flat index 1 from
root(id 0, Count 2)[inner(id 1, Count 2)[page 2, page 3]] leaves the
root caching Count 2 over a single remaining leaf. -/
theorem claim_C1_ancestor_update_bug :
    pagesInsert (PNode.pages 0 1 [.pages 1 1 [.page 2]]) 1 3
      = PNode.pages 0 1 [.pages 1 2 [.page 3, .page 2]] ∧
    nLeaves (PNode.pages 0 1 [.pages 1 2 [.page 3, .page 2]]) = 2 ∧
    rootCount (PNode.pages 0 1 [.pages 1 2 [.page 3, .page 2]]) = 1 ∧
    pagesRemove (PNode.pages 0 2 [.pages 1 2 [.page 2, .page 3]]) 1
      = (some 2, PNode.pages 0 2 [.pages 1 1 [.page 3]]) ∧
    nLeaves (PNode.pages 0 2 [.pages 1 1 [.page 3]]) = 1 ∧
    rootCount (PNode.pages 0 2 [.pages 1 1 [.page 3]]) = 2 := by
  refine ⟨?_, ?_, ?_, ?_, ?_, ?_⟩
  · simp [pagesInsert, findPages, findInKids, findInKidsG, wrapDec_one,
      dictInsert, dictInsertL, List.insertIdx]
  · simp [nLeaves, leafIds, leafIdsL]
  · simp [rootCount]
  · simp [pagesRemove, findPages, findInKids, findInKidsG, wrapDec_one,
      removedRef, findNode, findNodeL, rootId, dictRemove, dictRemoveL,
      List.eraseIdx]
  · simp [nLeaves, leafIds, leafIdsL]
  · simp [rootCount]

/-- C2 (code bug): on a one-page document, `move_page(1,1)` loses the
page: `remove(1)` empties the tree, then `insert(1, removed)` resolves
flat index 1 against the now-empty tree, `find_pages` returns `None`,
and `Pages::insert` silently does nothing, so the operation returns
`Ok` with the document left empty (leaf population 0, the page id gone),
not unchanged. -/
theorem claim_C2_move_page_identity_bug :
    movePage (PNode.pages 0 1 [.page 7]) 1 1 = some (PNode.pages 0 0 []) ∧
    nLeaves (PNode.pages 0 0 []) = 0 ∧
    leafIds (PNode.pages 0 0 []) = [] := by
  refine ⟨?_, ?_, ?_⟩
  · simp [movePage, pagesRemove, pagesInsert, findPages, findInKids, findInKidsG,
      wrapDec_one, removedRef, findNode, dictRemove, rootId]
  · simp [nLeaves, leafIds, leafIdsL]
  · simp [leafIds, leafIdsL]

/-- C4 counterexample: on the one-page tree root(id 0, Count 1)[page 1]
(leaf population n = 1), `insert(2, 9)` does not append page 9 — it
leaves the tree completely unchanged, so the new page does not become
the last leaf and the leaf count stays 1 instead of becoming 2. -/
theorem claim_C4_insert_append_counterexample :
    pagesInsert (PNode.pages 0 1 [.page 1]) 2 9 = PNode.pages 0 1 [.page 1] ∧
    nLeaves (pagesInsert (PNode.pages 0 1 [.page 1]) 2 9) = 1 := by
  have heq : pagesInsert (PNode.pages 0 1 [.page 1]) 2 9 = PNode.pages 0 1 [.page 1] := by
    simp [pagesInsert, findPages, findInKids, findInKidsG, wrapDec_two]
  refine ⟨heq, ?_⟩
  rw [heq]
  simp [nLeaves, leafIds, leafIdsL]

/-- C4 amended: calling `Pages::insert` with flat index n + 1 (one past
the last page) resolves nothing and leaves the page tree completely
unchanged — the page is not added anywhere.  The append behaviour used
when adding newly created pages belongs to the separate `Pages::push`
operation, which appends at the end of the root's child sequence and
increments the root's Count. -/
theorem claim_C4_insert_append_amended (rid : Nat) (c : Int) (kids : List PNode) (p : Nat)
    (hsz : nLeaves (PNode.pages rid c kids) + 1 < U64) :
    pagesInsert (PNode.pages rid c kids) (nLeaves (PNode.pages rid c kids) + 1) p
      = PNode.pages rid c kids ∧
    pagesPush (PNode.pages rid c kids) p = PNode.pages rid (c + 1) (kids ++ [.page p]) := by
  constructor
  · have hf : (findPages (PNode.pages rid c kids) (nLeaves (PNode.pages rid c kids) + 1)).2
        = none := by
      rw [findPages_pages, findInKids_gt rid _ 0 kids hsz (by rw [nLeaves_pages] at *; omega)]
    simp only [pagesInsert]
    rw [hf]
  · rfl

/-- Witness for the C4 amended claim on the one-page tree
root(id 0, Count 1)[page 1] with new page id 9. -/
theorem claim_C4_insert_append_amended_witness :
    nLeaves (PNode.pages 0 1 [PNode.page 1]) + 1 < U64 ∧
    (pagesInsert (PNode.pages 0 1 [PNode.page 1])
        (nLeaves (PNode.pages 0 1 [PNode.page 1]) + 1) 9
      = PNode.pages 0 1 [PNode.page 1] ∧
     pagesPush (PNode.pages 0 1 [PNode.page 1]) 9
      = PNode.pages 0 (1 + 1) ([PNode.page 1] ++ [PNode.page 9])) := by
  have hsz : nLeaves (PNode.pages 0 1 [PNode.page 1]) + 1 < U64 := by
    simp [nLeaves, leafIds, leafIdsL]
    norm_num [U64]
  exact ⟨hsz, claim_C4_insert_append_amended 0 1 [PNode.page 1] 9 hsz⟩

/-!
Link manager (src/pdf.rs lines 212-272, src/img2pdf.rs lines 97-135).
A Page dictionary is embedded by the two fields the operations touch:
the MediaBox rectangle (an array of integers; absent field = `none`) and
the Annots array (list of annotation object references; absent field =
`none`).  The lopdf object store keyed by page id is embedded as an
association list of page ids to page dictionaries.
-/

/-- String format tag of lopdf (`StringFormat`). -/
inductive StrFmt where
  | literal
  | hexadecimal
deriving DecidableEq

structure PageDict where
  mediaBox : Option (List Int)
  annots : Option (List Nat)
deriving DecidableEq

/-- The URI action dictionary created by `add_link`
(`{S: URI, URI: string_literal(link)}`). -/
structure UriDict where
  uri : String
deriving DecidableEq

/-- The Annot dictionary created by `add_link`
(`{Type: Annot, Subtype: Link, A: url_id, Rect: rect, Border: [0,0,0], F: 4}`). -/
structure AnnotDict where
  action : Nat
  rect : List Int
  border : List Int
  flags : Int
deriving DecidableEq

/-- Model of `Pdf::add_link` (src/pdf.rs lines 212-244): read the page's current
MediaBox (error when absent), allocate a URI action object and an Annot
object whose Rect is the copied MediaBox, whose Border is `[0, 0, 0]`
(zero border width) and whose flags value is 4, then overwrite the
page's Annots with the one-element array holding the new annotation
reference.  `urlId` and `annotId` stand for the two ids handed out by
`doc.add_object`; page-number resolution is done by the lopdf
collaborator before this code runs. -/
def addLink (page : PageDict) (urlId annotId : Nat) (link : String) :
    Option (PageDict × UriDict × AnnotDict) :=
  match page.mediaBox with
  | none => none
  | some rect =>
      some ({ page with annots := some [annotId] },
            { uri := link },
            { action := urlId, rect := rect, border := [0, 0, 0], flags := 4 })

/-- Lookup in the id-keyed page store (`doc.get_dictionary(_mut)`). -/
def docGet : List (Nat × PageDict) → Nat → Option PageDict
  | [], _ => none
  | (j, p) :: rest, i => if j = i then some p else docGet rest i

/-- Write-back to the id-keyed page store: replace the dictionary of the
given id. -/
def docSet : List (Nat × PageDict) → Nat → PageDict → List (Nat × PageDict)
  | [], _, _ => []
  | (j, q) :: rest, i, p =>
      if j = i then (j, p) :: docSet rest i p else (j, q) :: docSet rest i p

/-- Model of `Pdf::move_link` (src/pdf.rs lines 256-272): resolve both page ids
(error when either page is missing — `get_page_id` runs for both before
any mutation), remove the Annots entry of the source page (returning the
prior value), and if there was one, overwrite the Annots of the
destination page with it. -/
def moveLink (d : List (Nat × PageDict)) (src dst : Nat) :
    Option (List (Nat × PageDict)) :=
  match docGet d src, docGet d dst with
  | some sp, some _ =>
      let d1 := docSet d src { sp with annots := none }
      match sp.annots with
      | none => some d1
      | some a =>
          match docGet d1 dst with
          | none => none
          | some dp => some (docSet d1 dst { dp with annots := some a })
  | _, _ => none

theorem docGet_docSet_self {d : List (Nat × PageDict)} {i : Nat} {p q : PageDict}
    (h : docGet d i = some p) : docGet (docSet d i q) i = some q := by
  induction d with
  | nil => cases h
  | cons hd rest IH =>
    obtain ⟨j, v⟩ := hd
    by_cases hj : j = i
    · subst hj
      rw [docSet, if_pos rfl, docGet, if_pos rfl]
    · rw [docGet, if_neg hj] at h
      rw [docSet, if_neg hj, docGet, if_neg hj]
      exact IH h

theorem docGet_docSet_other {d : List (Nat × PageDict)} {i j : Nat} {q : PageDict}
    (h : j ≠ i) : docGet (docSet d i q) j = docGet d j := by
  induction d with
  | nil => simp [docGet, docSet]
  | cons hd rest IH =>
    obtain ⟨k, v⟩ := hd
    by_cases hk : k = i
    · subst hk
      have hkj : k ≠ j := fun he => h he.symm
      rw [docSet, if_pos rfl, docGet, docGet, if_neg hkj, if_neg hkj]
      exact IH
    · rw [docSet, if_neg hk, docGet, docGet]
      by_cases hkj : k = j
      · rw [if_pos hkj, if_pos hkj]
      · rw [if_neg hkj, if_neg hkj]
        exact IH

theorem docGet_not_mem {d : List (Nat × PageDict)} {i : Nat}
    (h : i ∉ d.map Prod.fst) : docGet d i = none := by
  induction d with
  | nil => rfl
  | cons hd rest IH =>
    obtain ⟨k, v⟩ := hd
    simp only [List.map_cons, List.mem_cons] at h
    push_neg at h
    rw [docGet, if_neg (fun he => h.1 he.symm)]
    exact IH h.2

theorem docSet_not_mem {d : List (Nat × PageDict)} {i : Nat} {p : PageDict}
    (h : i ∉ d.map Prod.fst) : docSet d i p = d := by
  induction d with
  | nil => rfl
  | cons hd rest IH =>
    obtain ⟨k, v⟩ := hd
    simp only [List.map_cons, List.mem_cons] at h
    push_neg at h
    rw [docSet, if_neg (fun he => h.1 he.symm)]
    rw [IH h.2]

theorem docSet_same {d : List (Nat × PageDict)} {i : Nat} {p : PageDict}
    (hnd : (d.map Prod.fst).Nodup) (h : docGet d i = some p) : docSet d i p = d := by
  induction d with
  | nil => cases h
  | cons hd rest IH =>
    obtain ⟨k, v⟩ := hd
    simp only [List.map_cons, List.nodup_cons] at hnd
    by_cases hk : k = i
    · subst hk
      rw [docGet, if_pos rfl] at h
      injection h with hpv
      rw [docSet, if_pos rfl, ← hpv]
      rw [docSet_not_mem hnd.1]
    · rw [docGet, if_neg hk] at h
      rw [docSet, if_neg hk, IH hnd.2 h]

/-- C7: for every page that exists and has a MediaBox, `add_link`
produces a URI action holding the link and an Annot object whose Rect is
exactly the page's MediaBox at the time of the call and whose Border is
the zero-width `[0, 0, 0]`, and overwrites the page's Annots with the
one-element array holding only the new annotation — whatever annotation
list the page had before; the MediaBox is untouched. -/
theorem claim_C7_add_link (page : PageDict) (rect : List Int) (urlId annotId : Nat)
    (link : String) (hmb : page.mediaBox = some rect) :
    ∃ page2 act annot,
      addLink page urlId annotId link = some (page2, act, annot) ∧
      annot.rect = rect ∧
      annot.border = [0, 0, 0] ∧
      annot.action = urlId ∧
      act.uri = link ∧
      page2.annots = some [annotId] ∧
      (page2.annots.map List.length) = some 1 ∧
      page2.mediaBox = page.mediaBox := by
  refine ⟨{ page with annots := some [annotId] },
          { uri := link },
          { action := urlId, rect := rect, border := [0, 0, 0], flags := 4 },
          ?_, rfl, rfl, rfl, rfl, rfl, rfl, rfl⟩
  rw [addLink, hmb]

/-- Witness for C7 on a page whose MediaBox is `[0, 0, 100, 200]` and
which already carries an annotation list. -/
theorem claim_C7_add_link_witness :
    (PageDict.mk (some [0, 0, 100, 200]) (some [3])).mediaBox = some [0, 0, 100, 200] ∧
    (∃ page2 act annot,
      addLink (PageDict.mk (some [0, 0, 100, 200]) (some [3])) 8 9 "https:example" =
        some (page2, act, annot) ∧
      annot.rect = [0, 0, 100, 200] ∧
      annot.border = [0, 0, 0] ∧
      annot.action = 8 ∧
      act.uri = "https:example" ∧
      page2.annots = some [9] ∧
      (page2.annots.map List.length) = some 1 ∧
      page2.mediaBox = (PageDict.mk (some [0, 0, 100, 200]) (some [3])).mediaBox) := by
  have hmb : (PageDict.mk (some [0, 0, 100, 200]) (some [3])).mediaBox
      = some [0, 0, 100, 200] := rfl
  exact ⟨hmb, claim_C7_add_link _ _ 8 9 "https:example" hmb⟩

/-- C8: for every pair of existing source and destination pages,
`move_link` succeeds; it removes the Annots entry from the source page,
and when the source had one it overwrites the destination's Annots with
it (whatever the destination had); when the source had none, the whole
store — destination page included — is left completely unchanged; pages
other than source and destination are never touched. -/
theorem claim_C8_move_link (d : List (Nat × PageDict)) (src dst : Nat) (sp dp : PageDict)
    (hnd : (d.map Prod.fst).Nodup)
    (hs : docGet d src = some sp) (hd : docGet d dst = some dp) :
    ∃ d2, moveLink d src dst = some d2 ∧
      (sp.annots = none → d2 = d) ∧
      (∀ a, sp.annots = some a →
        docGet d2 dst = some { dp with annots := some a } ∧
        (src ≠ dst → docGet d2 src = some { sp with annots := none }) ∧
        (∀ j, j ≠ src → j ≠ dst → docGet d2 j = docGet d j)) := by
  simp only [moveLink, hs, hd]
  cases hann : sp.annots with
  | none =>
    simp only [hann]
    refine ⟨docSet d src { sp with annots := none }, rfl, ?_, ?_⟩
    · intro _
      have hsp : { sp with annots := none } = sp := by
        cases sp with
        | mk mb an =>
          simp only at hann
          rw [hann]
      rw [hsp]
      exact docSet_same hnd hs
    · intro a ha
      simp at ha
  | some a0 =>
    simp only [hann]
    by_cases hsd : src = dst
    · subst hsd
      have hd1 : docGet (docSet d src { sp with annots := none }) src
          = some { sp with annots := none } := docGet_docSet_self hs
      rw [hd1]
      have hspdp : dp = sp := by
        rw [hs] at hd
        injection hd with h2
        exact h2.symm
      refine ⟨_, rfl, ?_, ?_⟩
      · intro hn
        simp at hn
      · intro a ha
        injection ha with ha0
        subst ha0
        refine ⟨?_, fun hne => absurd rfl hne, ?_⟩
        · rw [docGet_docSet_self hd1, hspdp]
        · intro j hj _
          rw [docGet_docSet_other hj, docGet_docSet_other hj]
    · have hd1 : docGet (docSet d src { sp with annots := none }) dst
          = some dp := by
        rw [docGet_docSet_other (fun he => hsd he.symm)]
        exact hd
      rw [hd1]
      refine ⟨_, rfl, ?_, ?_⟩
      · intro hn
        simp at hn
      · intro a ha
        injection ha with ha0
        subst ha0
        refine ⟨?_, ?_, ?_⟩
        · exact docGet_docSet_self hd1
        · intro _
          rw [docGet_docSet_other hsd]
          exact docGet_docSet_self hs
        · intro j hj1 hj2
          rw [docGet_docSet_other hj2, docGet_docSet_other hj1]

/-- Witness for C8 on a two-page store where page 1 carries an
annotation list and page 2 does not. -/
theorem claim_C8_move_link_witness :
    ((([(1, PageDict.mk none (some [5])), (2, PageDict.mk none none)] :
        List (Nat × PageDict)).map Prod.fst).Nodup) ∧
    docGet [(1, PageDict.mk none (some [5])), (2, PageDict.mk none none)] 1
      = some (PageDict.mk none (some [5])) ∧
    docGet [(1, PageDict.mk none (some [5])), (2, PageDict.mk none none)] 2
      = some (PageDict.mk none none) ∧
    (∃ d2, moveLink [(1, PageDict.mk none (some [5])), (2, PageDict.mk none none)] 1 2
        = some d2 ∧
      ((PageDict.mk none (some [5])).annots = none →
        d2 = [(1, PageDict.mk none (some [5])), (2, PageDict.mk none none)]) ∧
      (∀ a, (PageDict.mk none (some [5])).annots = some a →
        docGet d2 2 = some { PageDict.mk none none with annots := some a } ∧
        ((1 : Nat) ≠ 2 → docGet d2 1 = some { PageDict.mk none (some [5]) with annots := none }) ∧
        (∀ j, j ≠ 1 → j ≠ 2 →
          docGet d2 j
            = docGet [(1, PageDict.mk none (some [5])), (2, PageDict.mk none none)] j))) := by
  refine ⟨by decide, rfl, rfl, ?_⟩
  exact claim_C8_move_link _ 1 2 _ _ (by decide) rfl rfl

/-!
Document assembly: author metadata (src/pdf.rs lines 183-210,
src/img2pdf.rs lines 54-75).
-/

/-- Model of `str::encode_utf16` of the Rust standard library applied to
the author text: each Unicode scalar value below 0x10000 yields one
code unit; any other scalar value yields a surrogate pair (high
surrogate 0xD800 plus the upper ten bits of the offset from 0x10000, low
surrogate 0xDC00 plus the lower ten bits). -/
def utf16Units : List Char → List Nat
  | [] => []
  | ch :: rest =>
      let v := ch.toNat
      if v < 65536 then v :: utf16Units rest
      else (55296 + (v - 65536) / 1024) :: (56320 + (v - 65536) % 1024) :: utf16Units rest

/-- The byte build-up of `Pdf::set_author`: push `0xfe` then `0xff`,
then for each UTF-16 code unit push its two big-endian bytes
(`u16::to_be_bytes`: high byte `u / 256`, low byte `u % 256`). -/
def setAuthorBytes (units : List Nat) : List Nat :=
  units.foldl (fun acc u => acc ++ [u / 256, u % 256]) [254, 255]

/-- The Info dictionary restricted to the field `set_author` touches:
the Author entry, a byte string tagged with its lopdf `StringFormat`. -/
structure InfoDict where
  author : Option (List Nat × StrFmt)
deriving DecidableEq

/-- Model of `Pdf::set_author` (src/pdf.rs lines 183-210): store the encoded
bytes as a `StringFormat::Hexadecimal` string under Author, replacing
any prior value. -/
def setAuthor (info : InfoDict) (author : String) : InfoDict :=
  { info with author := some (setAuthorBytes (utf16Units author.data), StrFmt.hexadecimal) }

/-- Spec-side byte layout: two bytes per code unit, big-endian. -/
def bePairs : List Nat → List Nat
  | [] => []
  | u :: rest => u / 256 :: u % 256 :: bePairs rest

theorem setAuthorBytes_eq (units : List Nat) :
    setAuthorBytes units = 254 :: 255 :: bePairs units := by
  have hfold : ∀ (us : List Nat) (acc : List Nat),
      us.foldl (fun acc u => acc ++ [u / 256, u % 256]) acc = acc ++ bePairs us := by
    intro us
    induction us with
    | nil => intro acc; simp [bePairs]
    | cons u rest IH =>
      intro acc
      rw [List.foldl_cons, IH, bePairs]
      simp
  rw [setAuthorBytes, hfold]
  rfl

/-- C9: `set_author` stores under the Info record's Author field —
replacing any prior value — a hexadecimal-format string whose bytes are
the byte-order mark 0xFE 0xFF followed by the UTF-16 code units of the
text, each as two bytes in big-endian order. -/
theorem claim_C9_set_author (info : InfoDict) (s : String) :
    setAuthor info s =
      { author := some (254 :: 255 :: bePairs (utf16Units s.data), StrFmt.hexadecimal) } := by
  rw [setAuthor, setAuthorBytes_eq]

/-!
Image embedding engine, JPEG path (src/pdf.rs lines 302-338,
src/img2pdf.rs lines 145-175).  The external pixel decoder
(`image::load_from_memory`) is consulted only for width, height and
color model; the embedding is stated for every decode outcome, passed
in as arguments.
-/

/-- The color models of the `image` crate that `img.color()` can
report. -/
inductive JColorType where
  | l8 | la8 | rgb8 | rgba8 | l16 | la16 | rgb16 | rgba16
deriving DecidableEq

/-- The image XObject stream built by `add_jpeg`: Filter, ColorSpace,
BitsPerComponent, the Length entry of the dictionary (written as
`bytes.len() as u16`, hence reduced modulo 2^16), Width, Height, and the
actual stream payload. -/
structure JpegStream where
  filter : String
  colorSpace : String
  bitsPerComponent : Nat
  declaredLength : Nat
  width : Nat
  height : Nat
  payload : List Nat
deriving DecidableEq

/-- Model of `Pdf::add_jpeg` (src/pdf.rs lines 302-338) given the decode result
(width, height, color model) of the input bytes: map the color model to
(ColorSpace, BitsPerComponent) — any model other than 8/16-bit
single-channel or three-channel is an error — and build the DCTDecode
image stream embedding the original bytes verbatim, with the dictionary
Length entry cast to u16. -/
def addJpeg (bytes : List Nat) (width height : Nat) (color : JColorType) :
    Option JpegStream :=
  match (match color with
         | .l8 => some ("DeviceGray", 8)
         | .l16 => some ("DeviceGray", 16)
         | .rgb8 => some ("DeviceRGB", 8)
         | .rgb16 => some ("DeviceRGB", 16)
         | _ => none) with
  | none => none
  | some (cs, bpc) =>
      some { filter := "DCTDecode", colorSpace := cs, bitsPerComponent := bpc,
             declaredLength := bytes.length % 65536,
             width := width, height := height, payload := bytes }

/-- C6: for every input and every decode outcome, `add_jpeg` embeds the
original bytes verbatim as a DCTDecode stream and maps the color model
as: 8-bit single-channel to DeviceGray/8, 16-bit single-channel to
DeviceGray/16, 8-bit three-channel to DeviceRGB/8, 16-bit three-channel
to DeviceRGB/16; every other color model (two-channel gray+alpha,
four-channel RGB+alpha) is rejected with the unsupported-color-model
error. -/
theorem claim_C6_jpeg_color_mapping (bytes : List Nat) (w h : Nat) :
    addJpeg bytes w h .l8 = some
      { filter := "DCTDecode", colorSpace := "DeviceGray", bitsPerComponent := 8,
        declaredLength := bytes.length % 65536, width := w, height := h,
        payload := bytes } ∧
    addJpeg bytes w h .l16 = some
      { filter := "DCTDecode", colorSpace := "DeviceGray", bitsPerComponent := 16,
        declaredLength := bytes.length % 65536, width := w, height := h,
        payload := bytes } ∧
    addJpeg bytes w h .rgb8 = some
      { filter := "DCTDecode", colorSpace := "DeviceRGB", bitsPerComponent := 8,
        declaredLength := bytes.length % 65536, width := w, height := h,
        payload := bytes } ∧
    addJpeg bytes w h .rgb16 = some
      { filter := "DCTDecode", colorSpace := "DeviceRGB", bitsPerComponent := 16,
        declaredLength := bytes.length % 65536, width := w, height := h,
        payload := bytes } ∧
    addJpeg bytes w h .la8 = none ∧
    addJpeg bytes w h .la16 = none ∧
    addJpeg bytes w h .rgba8 = none ∧
    addJpeg bytes w h .rgba16 = none :=
  ⟨rfl, rfl, rfl, rfl, rfl, rfl, rfl, rfl⟩

/-- C10: for every accepted JPEG input, the Length entry declared in the
stream dictionary is the byte length reduced modulo 2^16 (the `as u16`
cast) while the payload is the full byte slice, so any input of 65536
bytes or more is embedded with a declared Length different from the true
payload length. -/
theorem claim_C10_jpeg_length_truncation (bytes : List Nat) (w h : Nat)
    (color : JColorType) (s : JpegStream) (hacc : addJpeg bytes w h color = some s) :
    s.declaredLength = bytes.length % 65536 ∧
    s.payload = bytes ∧
    (65536 ≤ bytes.length → s.declaredLength ≠ bytes.length) := by
  have hs : s.declaredLength = bytes.length % 65536 ∧ s.payload = bytes := by
    cases color <;> cases hacc <;> exact ⟨rfl, rfl⟩
  refine ⟨hs.1, hs.2, ?_⟩
  intro hlen
  rw [hs.1]
  have hmod : bytes.length % 65536 < 65536 := Nat.mod_lt _ (by norm_num)
  omega

/-- Witness for C10 on a 65536-byte input decoded as 8-bit grayscale:
the declared Length collapses to 0 while the payload keeps all 65536
bytes. -/
theorem claim_C10_jpeg_length_truncation_witness :
    addJpeg (List.replicate 65536 0) 16 16 .l8 = some
      { filter := "DCTDecode", colorSpace := "DeviceGray", bitsPerComponent := 8,
        declaredLength := (List.replicate (65536 : Nat) (0 : Nat)).length % 65536,
        width := 16, height := 16, payload := List.replicate 65536 0 } ∧
    (65536 : Nat) ≤ (List.replicate (65536 : Nat) (0 : Nat)).length ∧
    ({ filter := "DCTDecode", colorSpace := "DeviceGray", bitsPerComponent := 8,
       declaredLength := (List.replicate (65536 : Nat) (0 : Nat)).length % 65536,
       width := 16, height := 16,
       payload := List.replicate 65536 0 } : JpegStream).declaredLength
      ≠ (List.replicate (65536 : Nat) (0 : Nat)).length := by
  have hacc : addJpeg (List.replicate 65536 0) 16 16 .l8 = some
      { filter := "DCTDecode", colorSpace := "DeviceGray", bitsPerComponent := 8,
        declaredLength := (List.replicate (65536 : Nat) (0 : Nat)).length % 65536,
        width := 16, height := 16, payload := List.replicate 65536 0 } := rfl
  have hlen : (65536 : Nat) ≤ (List.replicate (65536 : Nat) (0 : Nat)).length := by
    rw [List.length_replicate]
  exact ⟨hacc, hlen,
    (claim_C10_jpeg_length_truncation (List.replicate 65536 0) 16 16 .l8 _ hacc).2.2 hlen⟩

/-!
Image embedding engine, PNG path (src/pdf.rs lines 340-445,
src/img2pdf.rs lines 177-259).  The chunk reader module `crate::png`
(`get_info`, `get_idat`) is not part of src/; it is modelled from the
spec (section 6: `read_header`, `read_icc`, `read_palette`,
`read_idat_concat`) over the standard PNG chunk layout: an 8-byte
signature followed by chunks, each a 4-byte big-endian data length, a
4-byte type, the data and a 4-byte checksum.  The re-encode branch for
interlaced or alpha images (external pixel decode and PNG re-encode) is
abstracted as a parameter.
-/

/-- Big-endian 32-bit value of four bytes. -/
def beU32 (b0 b1 b2 b3 : Nat) : Nat := ((b0 * 256 + b1) * 256 + b2) * 256 + b3

/-- Modelled from the spec: the chunk sequence of a PNG byte stream
after the signature — each chunk a (type, data) pair, read by taking the
4-byte big-endian length, the 4-byte type, that many data bytes and
skipping the 4-byte checksum. -/
def pngChunks : List Nat → List (List Nat × List Nat)
  | [] => []
  | b :: rest =>
      let len := match (b :: rest).take 4 with
                 | [b0, b1, b2, b3] => beU32 b0 b1 b2 b3
                 | _ => 0
      let typ := ((b :: rest).drop 4).take 4
      let dat := ((b :: rest).drop 8).take len
      (typ, dat) :: pngChunks (rest.drop (11 + len))
termination_by l => l.length
decreasing_by
  simp only [List.length_cons, List.length_drop]
  omega

/-- The PNG signature bytes. -/
def pngSig : List Nat := [137, 80, 78, 71, 13, 10, 26, 10]

/-- Chunk type "IHDR". -/
def typIHDR : List Nat := [73, 72, 68, 82]

/-- Chunk type "IDAT". -/
def typIDAT : List Nat := [73, 68, 65, 84]

/-- Chunk type "iCCP". -/
def typICCP : List Nat := [105, 67, 67, 80]

/-- Chunk type "PLTE". -/
def typPLTE : List Nat := [80, 76, 84, 69]

/-- Modelled from the spec: `read_icc` — the data of the ICC profile
chunk when present. -/
def findIcc : List (List Nat × List Nat) → Option (List Nat)
  | [] => none
  | ch :: rest => if ch.1 = typICCP then some ch.2 else findIcc rest

/-- Modelled from the spec: `read_palette` — the palette bytes and entry
count (three bytes per entry) when a palette chunk is present. -/
def findPalette : List (List Nat × List Nat) → Option (List Nat × Nat)
  | [] => none
  | ch :: rest => if ch.1 = typPLTE then some (ch.2, ch.2.length / 3) else findPalette rest

/-- Modelled from the spec: `read_idat_concat` — the concatenation of
the data of all IDAT chunks, in stream order. -/
def concatIdat : List (List Nat × List Nat) → List Nat
  | [] => []
  | ch :: rest => if ch.1 = typIDAT then ch.2 ++ concatIdat rest else concatIdat rest

/-- Modelled from the spec: `crate::png::get_idat` over the raw file
bytes. -/
def readIdatConcat (bytes : List Nat) : List Nat :=
  concatIdat (pngChunks (bytes.drop 8))

/-- The header and ancillary data `crate::png::get_info` reports. -/
structure PngInfo where
  width : Nat
  height : Nat
  depth : Nat
  colorType : Nat
  interlace : Bool
  icc : Option (List Nat)
  palette : Option (List Nat × Nat)
deriving DecidableEq

/-- Modelled from the spec: `crate::png::get_info` — check the
signature, read width, height, bit depth, color type and interlace flag
from the 13-byte IHDR data of the first chunk, and collect the optional
ICC profile and palette chunks. -/
def getInfo (bytes : List Nat) : Option PngInfo :=
  if bytes.take 8 = pngSig then
    match pngChunks (bytes.drop 8) with
    | (typ, dat) :: _ =>
        if typ = typIHDR then
          match dat with
          | [w0, w1, w2, w3, h0, h1, h2, h3, d, ct, _, _, il] =>
              some { width := beU32 w0 w1 w2 w3, height := beU32 h0 h1 h2 h3,
                     depth := d, colorType := ct, interlace := il != 0,
                     icc := findIcc (pngChunks (bytes.drop 8)),
                     palette := findPalette (pngChunks (bytes.drop 8)) }
          | _ => none
        else none
    | [] => none
  else none

/-- The ColorSpace object `add_png` writes. -/
inductive CSObj where
  | device (name : String)
  | iccBased (n : Nat) (alternate : String) (declaredLength : Nat) (profile : List Nat)
  | indexed (base : String) (hival : Nat) (palette : List Nat)
deriving DecidableEq

/-- The image XObject stream built by `add_png`: Filter, BitsPerComponent,
the Length entry (`idat.len() as u32`), Width, Height, the DecodeParms
entries (BitsPerComponent, Predictor, Columns, Colors), the ColorSpace
object and the actual stream payload. -/
structure PngStream where
  filter : String
  bitsPerComponent : Nat
  declaredLength : Nat
  width : Nat
  height : Nat
  parmsBitsPerComponent : Nat
  predictor : Nat
  columns : Nat
  colors : Nat
  colorSpace : CSObj
  payload : List Nat
deriving DecidableEq

/-- Model of `Pdf::add_png` (src/pdf.rs lines 340-445): read the chunk info; when
the image is interlaced or its color type is at least 4 (alpha present),
run the external decode / strip-alpha / PNG re-encode path — abstracted
here as the function `reencode` on (color type, bit depth, bytes), whose
`none` embeds the bail on unsupported depths — otherwise keep the
original bytes; derive the component count (1 for color types 0, 3, 4,
else 3); extract the compressed scanline data as the IDAT concatenation
of the (possibly re-encoded) bytes; build the ColorSpace object (plain
device space or ICCBased stream for color types 0/2/4/6 — gray for 0/4,
RGB otherwise — and Indexed over DeviceRGB with hival = entry count - 1
for color type 3, whose absent-palette case embeds the `unwrap` panic
as `none`); and assemble the FlateDecode image stream with
DecodeParms {BitsPerComponent = depth, Predictor = 15, Columns = width,
Colors = component count}. -/
def addPng (reencode : Nat → Nat → List Nat → Option (List Nat)) (bytes : List Nat) :
    Option PngStream :=
  match getInfo bytes with
  | none => none
  | some info =>
      match (if info.interlace || info.colorType ≥ 4
             then reencode info.colorType info.depth bytes
             else some bytes) with
      | none => none
      | some bytes2 =>
          let colors : Nat :=
            if info.colorType = 0 || info.colorType = 3 || info.colorType = 4 then 1 else 3
          let idat := readIdatConcat bytes2
          match (match info.colorType with
                 | 0 | 2 | 4 | 6 =>
                     match info.icc with
                     | some raw =>
                         some (CSObj.iccBased colors
                           (if info.colorType = 0 || info.colorType = 4
                            then "DeviceGray" else "DeviceRGB")
                           (raw.length % 4294967296) raw)
                     | none =>
                         some (CSObj.device
                           (if info.colorType = 0 || info.colorType = 4
                            then "DeviceGray" else "DeviceRGB"))
                 | 3 =>
                     match info.palette with
                     | some pal => some (CSObj.indexed "DeviceRGB" (pal.2 - 1) pal.1)
                     | none => none
                 | _ => none) with
          | none => none
          | some cs =>
              some { filter := "FlateDecode", bitsPerComponent := info.depth,
                     declaredLength := idat.length % 4294967296,
                     width := info.width, height := info.height,
                     parmsBitsPerComponent := info.depth, predictor := 15,
                     columns := info.width, colors := colors,
                     colorSpace := cs, payload := idat }

/-- C5: for every input whose PNG header reports color type 2 (truecolor),
bit depth 8, no interlacing and no ICC profile chunk, `add_png` — for
every possible behaviour of the external re-encode collaborator, which
is never consulted — embeds as stream payload exactly the IDAT
concatenation of the original input bytes, with Predictor 15, Columns =
image width, Colors = 3, BitsPerComponent = 8 and ColorSpace
DeviceRGB. -/
theorem claim_C5_png_passthrough (reencode : Nat → Nat → List Nat → Option (List Nat))
    (bytes : List Nat) (info : PngInfo) (hinfo : getInfo bytes = some info)
    (hct : info.colorType = 2) (hd : info.depth = 8)
    (hil : info.interlace = false) (hicc : info.icc = none) :
    addPng reencode bytes = some
      { filter := "FlateDecode", bitsPerComponent := 8,
        declaredLength := (readIdatConcat bytes).length % 4294967296,
        width := info.width, height := info.height,
        parmsBitsPerComponent := 8, predictor := 15, columns := info.width,
        colors := 3, colorSpace := CSObj.device "DeviceRGB",
        payload := readIdatConcat bytes } := by
  obtain ⟨w2, h2, d2, ct2, il2, icc2, pal2⟩ := info
  simp only at hct hd hil hicc
  subst hct
  subst hd
  subst hil
  subst hicc
  rw [addPng, hinfo]
  norm_num

/-- A minimal 1x1 truecolor (color type 2), 8-bit, non-interlaced PNG
byte stream with no ICC profile and no palette: signature, IHDR chunk,
one IDAT chunk with data bytes 9, 8, 7, and IEND. -/
def pngSample : List Nat :=
  [137, 80, 78, 71, 13, 10, 26, 10,
   0, 0, 0, 13, 73, 72, 68, 82, 0, 0, 0, 1, 0, 0, 0, 1, 8, 2, 0, 0, 0, 1, 2, 3, 4,
   0, 0, 0, 3, 73, 68, 65, 84, 9, 8, 7, 5, 6, 7, 8,
   0, 0, 0, 0, 73, 69, 78, 68, 9, 9, 9, 9]

/-- The header info of `pngSample`. -/
def pngSampleInfo : PngInfo :=
  { width := 1, height := 1, depth := 8, colorType := 2, interlace := false,
    icc := none, palette := none }

/-- Witness for C5 on `pngSample`: the hypotheses hold and the
conclusion is obtained from the theorem, with the external re-encode
collaborator instantiated by the function that always fails (it is never
consulted). -/
theorem claim_C5_png_passthrough_witness :
    getInfo pngSample = some pngSampleInfo ∧
    pngSampleInfo.colorType = 2 ∧
    pngSampleInfo.depth = 8 ∧
    pngSampleInfo.interlace = false ∧
    pngSampleInfo.icc = none ∧
    addPng (fun _ _ _ => none) pngSample = some
      { filter := "FlateDecode", bitsPerComponent := 8,
        declaredLength := (readIdatConcat pngSample).length % 4294967296,
        width := pngSampleInfo.width, height := pngSampleInfo.height,
        parmsBitsPerComponent := 8, predictor := 15, columns := pngSampleInfo.width,
        colors := 3, colorSpace := CSObj.device "DeviceRGB",
        payload := readIdatConcat pngSample } := by
  have hinfo : getInfo pngSample = some pngSampleInfo := by
    simp [getInfo, pngSample, pngSampleInfo, pngChunks, pngSig, typIHDR, typICCP, typPLTE,
      typIDAT, beU32, findIcc, findPalette]
  exact ⟨hinfo, rfl, rfl, rfl, rfl,
    claim_C5_png_passthrough _ pngSample pngSampleInfo hinfo rfl rfl rfl rfl⟩
